import Mathlib

/-!
Verification of the subtitle-trimming core of `subtrim` (src/main.rs).

Shallow embedding:
* Time points and time deltas are integer millisecond counts (`ℤ`), as in
  the subparse time types, whose payload is an `i64` millisecond count.
* A `TimeSpan` is a pair of such instants; subparse imposes no order
  invariant and the trimmer passes malformed spans through, so neither
  does the model.
* A `SubtitleEntry` is a span plus an optional text line.
* The command line supplies `f64` block boundaries; finite doubles are an
  order-embedded subset of `ℚ`, so blocks are modelled as pairs of
  rationals, and the second-to-millisecond conversion performed by
  `trim_subtitles` (`x.trunc() as i64` seconds plus
  `(x.fract() * 1000.0) as i64` milliseconds) is modelled by `msOf` via
  truncation toward zero on `ℚ`.
-/

/-- A time span: two instants in milliseconds. Models `subparse::TimeSpan`
(field `end` is renamed `stop`, `end` being a Lean keyword). No order
invariant is imposed: the Rust type has none and the trimmer forwards
malformed spans untouched. -/
structure TimeSpan where
  start : ℤ
  stop : ℤ
deriving DecidableEq, Repr

/-- One parsed subtitle cue: a time span and an optional text line.
Models `subparse::SubtitleEntry`. -/
structure SubtitleEntry where
  timespan : TimeSpan
  line : Option String
deriving DecidableEq, Repr

/-- Truncation toward zero of a rational, modelling Rust `f64::trunc`
composed with `as i64`. -/
def f64Trunc (q : ℚ) : ℤ :=
  if q < 0 then -⌊-q⌋ else ⌊q⌋

/-- The millisecond count `trim_subtitles` builds from an `f64` argument:
`from_components(0, 0, x.trunc() as i64, (x.fract() * 1000.0) as i64)`,
i.e. whole seconds times 1000 plus the truncated fractional milliseconds. -/
def msOf (q : ℚ) : ℤ :=
  f64Trunc q * 1000 + f64Trunc ((q - (f64Trunc q : ℚ)) * 1000)

/-- The per-entry body of the `filter_map` closure in `trim_subtitles`
(src/main.rs lines 73-86), with the start delta and end point already in
milliseconds: shift the span back by `startMs`; drop the cue when the
shifted end is negative or the shifted start is at or past `endMs`;
otherwise clamp a negative start to 0, clamp an end past `endMs` to
`endMs`, and emit the span with the cue's text (empty when absent). -/
def trimEntry (startMs endMs : ℤ) (entry : SubtitleEntry) : Option (TimeSpan × String) :=
  let ns : TimeSpan := ⟨entry.timespan.start - startMs, entry.timespan.stop - startMs⟩
  if ns.stop < 0 ∨ ns.start ≥ endMs then
    none
  else
    let ns1 : TimeSpan := if ns.start < 0 then ⟨0, ns.stop⟩ else ns
    let ns2 : TimeSpan := if ns1.stop > endMs then ⟨ns1.start, endMs⟩ else ns1
    some (ns2, entry.line.getD "")

/-- Millisecond-level core of `trim_subtitles`: a `filter_map` of
`trimEntry` over the entry list, in order. -/
def trimCore (subtitles : List SubtitleEntry) (startMs endMs : ℤ) :
    List (TimeSpan × String) :=
  subtitles.filterMap (trimEntry startMs endMs)

/-- `trim_subtitles(subtitles, start, duration, ..)` (src/main.rs lines
59-87): converts the `f64` arguments to milliseconds and filter-maps the
entries. The cues it returns are the ones the Rust function appends to
the caller's output vector. -/
def trim_subtitles (subtitles : List SubtitleEntry) (start duration : ℚ) :
    List (TimeSpan × String) :=
  trimCore subtitles (msOf start) (msOf duration)

/-- The loop of `validate_blocks` (src/main.rs lines 89-97) with running
lower bound `time`: `ensure!(block.0 < block.1)` then
`ensure!(time <= block.0)`, then `time = block.1`. The error strings name
the failed condition, as anyhow's `ensure!` does. -/
def validateFrom (time : ℚ) : List (ℚ × ℚ) → Except String Unit
  | [] => Except.ok ()
  | b :: rest =>
    if b.1 < b.2 then
      if time ≤ b.1 then validateFrom b.2 rest
      else Except.error "time <= block.0"
    else Except.error "block.0 < block.1"

/-- `validate_blocks(blocks)`: the loop started with `time = 0.0`. -/
def validate_blocks (blocks : List (ℚ × ℚ)) : Except String Unit :=
  validateFrom 0 blocks

/-- The trimming loop of `try_main` (src/main.rs lines 136-139): starting
from an empty vector, each block appends `trim_subtitles(subtitles,
block.0, block.1, ..)` — note the raw `block.1` passed as `duration`. -/
def aggregate (subtitles : List SubtitleEntry) (blocks : List (ℚ × ℚ)) :
    List (TimeSpan × String) :=
  blocks.foldl (fun acc b => acc ++ trim_subtitles subtitles b.1 b.2) []

/-- The pure core of `try_main` (src/main.rs lines 108-139): validate the
blocks first, and only on success run the trimming loop. Parsing and I/O
are the external collaborators and are outside this core. -/
def try_main_core (blocks : List (ℚ × ℚ)) (subtitles : List SubtitleEntry) :
    Except String (List (TimeSpan × String)) :=
  match validate_blocks blocks with
  | Except.ok () => Except.ok (aggregate subtitles blocks)
  | Except.error e => Except.error e

/-- The duration-based aggregation the spec documents as the intended
("true extent") reading: each window passes `end − start`, not the raw
`end`, as the trimmer's `duration`. Stated from the spec's words for
comparison with `aggregate`. -/
def aggregate_durationBased (subtitles : List SubtitleEntry) (blocks : List (ℚ × ℚ)) :
    List (TimeSpan × String) :=
  blocks.foldl (fun acc b => acc ++ trim_subtitles subtitles b.1 (b.2 - b.1)) []

/-- The well-formedness condition on a block list as the spec states it,
with running lower bound `time`: each block satisfies `start < end` and
its start is at or after the previous block's end. Stated from the spec's
words for comparison with `validateFrom`. -/
def blocksWellFormedFrom (time : ℚ) : List (ℚ × ℚ) → Prop
  | [] => True
  | b :: rest => time ≤ b.1 ∧ b.1 < b.2 ∧ blocksWellFormedFrom b.2 rest

/-- Keep-predicate of the trimmer's `filter_map`: the cue survives when
its shifted end is not negative and its shifted start is before `endMs`. -/
def keepEntry (startMs endMs : ℤ) (entry : SubtitleEntry) : Bool :=
  !(decide (entry.timespan.stop - startMs < 0) ||
    decide (entry.timespan.start - startMs ≥ endMs))

/-- The span a surviving cue is emitted with: shifted by `startMs`, start
clamped up to 0, end clamped down to `endMs`. -/
def emitSpan (startMs endMs : ℤ) (entry : SubtitleEntry) : TimeSpan :=
  let ns : TimeSpan := ⟨entry.timespan.start - startMs, entry.timespan.stop - startMs⟩
  let ns1 : TimeSpan := if ns.start < 0 then ⟨0, ns.stop⟩ else ns
  if ns1.stop > endMs then ⟨ns1.start, endMs⟩ else ns1

/-- The output cue a surviving entry contributes: the clamped span and
the entry's text, defaulted to the empty string. -/
def emitEntry (startMs endMs : ℤ) (entry : SubtitleEntry) : TimeSpan × String :=
  (emitSpan startMs endMs entry, entry.line.getD "")

instance exceptDecEq {ε α : Type} [DecidableEq ε] [DecidableEq α] :
    DecidableEq (Except ε α)
  | Except.ok a, Except.ok b =>
    if h : a = b then isTrue (by rw [h]) else isFalse (fun hh => h (Except.ok.inj hh))
  | Except.ok _, Except.error _ => isFalse (fun hh => Except.noConfusion hh)
  | Except.error _, Except.ok _ => isFalse (fun hh => Except.noConfusion hh)
  | Except.error e, Except.error f =>
    if h : e = f then isTrue (by rw [h]) else isFalse (fun hh => h (Except.error.inj hh))

lemma trimEntry_eq_ite (startMs endMs : ℤ) (entry : SubtitleEntry) :
    trimEntry startMs endMs entry =
      if keepEntry startMs endMs entry then some (emitEntry startMs endMs entry)
      else none := by
  simp only [trimEntry, keepEntry, emitEntry, emitSpan]
  by_cases h1 : entry.timespan.stop - startMs < 0
  · rw [if_pos (Or.inl h1)]
    simp [h1]
  · by_cases h2 : entry.timespan.start - startMs ≥ endMs
    · rw [if_pos (Or.inr h2)]
      simp [h1, h2]
    · rw [if_neg (by tauto)]
      simp [h1, h2]

lemma trimCore_eq_filter_map (subtitles : List SubtitleEntry) (startMs endMs : ℤ) :
    trimCore subtitles startMs endMs =
      (subtitles.filter (keepEntry startMs endMs)).map (emitEntry startMs endMs) := by
  induction subtitles with
  | nil => rfl
  | cons a l ih =>
    rw [trimCore, List.filterMap_cons, trimEntry_eq_ite, List.filter_cons]
    by_cases h : keepEntry startMs endMs a <;> simp [h] <;> exact ih

lemma foldl_append_eq_join (f : ℚ × ℚ → List (TimeSpan × String))
    (blocks : List (ℚ × ℚ)) (init : List (TimeSpan × String)) :
    blocks.foldl (fun acc b => acc ++ f b) init = init ++ (blocks.map f).flatten := by
  induction blocks generalizing init with
  | nil => simp
  | cons b bs ih => simp [List.foldl_cons, ih, List.append_assoc]

lemma aggregate_eq_join (subtitles : List SubtitleEntry) (blocks : List (ℚ × ℚ)) :
    aggregate subtitles blocks =
      (blocks.map (fun b => trim_subtitles subtitles b.1 b.2)).flatten := by
  rw [aggregate, foldl_append_eq_join, List.nil_append]

lemma validateFrom_ok_mem {time : ℚ} {blocks : List (ℚ × ℚ)}
    (h : validateFrom time blocks = Except.ok ()) :
    ∀ b ∈ blocks, time ≤ b.1 ∧ b.1 < b.2 := by
  induction blocks generalizing time with
  | nil => intro b hb; cases hb
  | cons a l ih =>
    rw [validateFrom] at h
    by_cases h1 : a.1 < a.2
    · rw [if_pos h1] at h
      by_cases h2 : time ≤ a.1
      · rw [if_pos h2] at h
        intro b hb
        rcases List.mem_cons.mp hb with rfl | hb
        · exact ⟨h2, h1⟩
        · have := ih h b hb
          exact ⟨le_trans (le_trans h2 (le_of_lt h1)) this.1, this.2⟩
      · rw [if_neg h2] at h; cases h
    · rw [if_neg h1] at h; cases h

lemma f64Trunc_nonneg {q : ℚ} (h : 0 ≤ q) : 0 ≤ f64Trunc q := by
  rw [f64Trunc, if_neg (not_lt.mpr h)]
  exact Int.floor_nonneg.mpr h

lemma msOf_nonneg {q : ℚ} (h : 0 ≤ q) : 0 ≤ msOf q := by
  rw [msOf]
  have h1 : f64Trunc q = ⌊q⌋ := by rw [f64Trunc, if_neg (not_lt.mpr h)]
  have h2 : (0 : ℚ) ≤ (q - (f64Trunc q : ℚ)) * 1000 := by
    have : (f64Trunc q : ℚ) ≤ q := by rw [h1]; exact Int.floor_le q
    nlinarith
  have h3 : 0 ≤ f64Trunc q := f64Trunc_nonneg h
  have h4 : 0 ≤ f64Trunc ((q - (f64Trunc q : ℚ)) * 1000) := f64Trunc_nonneg h2
  nlinarith

lemma msOf_two : msOf 2 = 2000 := by norm_num [msOf, f64Trunc]

lemma msOf_four : msOf 4 = 4000 := by norm_num [msOf, f64Trunc]

lemma msOf_five : msOf 5 = 5000 := by norm_num [msOf, f64Trunc]

lemma msOf_ten : msOf 10 = 10000 := by norm_num [msOf, f64Trunc]

lemma trimCore_singleton (startMs endMs : ℤ) (entry : SubtitleEntry) :
    trimCore [entry] startMs endMs =
      if keepEntry startMs endMs entry then [emitEntry startMs endMs entry] else [] := by
  rw [trimCore, List.filterMap_cons, trimEntry_eq_ite]
  by_cases h : keepEntry startMs endMs entry <;> simp [h, trimCore]

/-- C1 counterexample: a cue whose shifted end is exactly 0 (it ends
exactly when the window begins) is NOT omitted, contrary to the claim:
with window start 5000 ms and extent 5000 ms, the cue spanning
4000-5000 ms has shifted end 0 and is emitted as the zero-length cue
(0, 0) rather than dropped. -/
theorem c1_counterexample :
    (⟨⟨4000, 5000⟩, some "A"⟩ : SubtitleEntry).timespan.stop - 5000 = 0 ∧
    trimCore [⟨⟨4000, 5000⟩, some "A"⟩] 5000 5000 = [(⟨0, 0⟩, "A")] ∧
    trimCore [⟨⟨4000, 5000⟩, some "A"⟩] 5000 5000 ≠ [] := by
  refine ⟨by decide, by decide, by decide⟩

/-- C1 (amended): a cue is omitted iff its shifted end is negative or its
shifted start is at or past the extent; in particular a cue whose shifted
start equals exactly the extent is dropped, but a cue whose shifted end
equals exactly 0 is kept and (for a well-formed span and positive extent)
emitted as the zero-length span (0, 0). -/
theorem c1_drop_rule_amended (startMs endMs : ℤ) (entry : SubtitleEntry) :
    (trimCore [entry] startMs endMs = [] ↔
      entry.timespan.stop - startMs < 0 ∨ entry.timespan.start - startMs ≥ endMs) ∧
    (entry.timespan.start - startMs = endMs → trimCore [entry] startMs endMs = []) ∧
    (entry.timespan.stop - startMs = 0 → entry.timespan.start ≤ entry.timespan.stop →
      0 < endMs →
      trimCore [entry] startMs endMs = [(⟨0, 0⟩, entry.line.getD "")]) := by
  refine ⟨?_, ?_, ?_⟩
  · rw [trimCore_singleton]
    by_cases h1 : entry.timespan.stop - startMs < 0
    · simp [keepEntry, h1]
    · by_cases h2 : entry.timespan.start - startMs ≥ endMs
      · simp [keepEntry, h1, h2]
      · simp [keepEntry, h1, h2]
  · intro h
    rw [trimCore_singleton]
    have hk : keepEntry startMs endMs entry = false := by
      simp [keepEntry]
      omega
    simp [hk]
  · intro h0 hwf hpos
    rw [trimCore_singleton]
    have hk : keepEntry startMs endMs entry = true := by
      simp [keepEntry]
      omega
    have hspan : emitSpan startMs endMs entry = ⟨0, 0⟩ := by
      simp only [emitSpan]
      split_ifs with h1 h2 <;> simp_all <;> omega
    simp [hk, emitEntry, hspan]

/-- C1 witness: the amended drop rule instantiated at the counterexample
cue: shifted end 0, well-formed span, positive extent, so the cue is
emitted as the zero-length span. -/
theorem c1_drop_rule_amended_witness :
    trimCore [⟨⟨4000, 5000⟩, some "A"⟩] 5000 5000 =
      [(⟨0, 0⟩, (some "A").getD "")] :=
  (c1_drop_rule_amended 5000 5000 ⟨⟨4000, 5000⟩, some "A"⟩).2.2
    (by decide) (by decide) (by decide)

/-- C3 counterexample: a malformed input span with start > end is passed
through uncorrected, so the emitted span violates start ≤ end: the cue
spanning 5000-3000 ms under the window (0, 10000) is emitted as
(5000, 3000). -/
theorem c3_counterexample :
    trimCore [⟨⟨5000, 3000⟩, some "X"⟩] 0 10000 = [(⟨5000, 3000⟩, "X")] ∧
    ¬((3000 : ℤ) ≥ 5000) := by
  refine ⟨by decide, by decide⟩

/-- C3 (amended): for a positive extent and input cues with well-formed
spans (start ≤ end) — arbitrary otherwise, including spans extending past
the window on both sides — every emitted span satisfies
0 ≤ start ≤ end ≤ extent. Malformed spans (start > end) are excluded:
the code passes them through uncorrected. -/
theorem c3_clamping_amended (subtitles : List SubtitleEntry) (startMs endMs : ℤ)
    (hpos : 0 < endMs)
    (hwf : ∀ e ∈ subtitles, e.timespan.start ≤ e.timespan.stop) :
    ∀ p ∈ trimCore subtitles startMs endMs,
      0 ≤ p.1.start ∧ p.1.start ≤ p.1.stop ∧ p.1.stop ≤ endMs := by
  intro p hp
  rw [trimCore_eq_filter_map] at hp
  rcases List.mem_map.mp hp with ⟨e, he, rfl⟩
  have hew := hwf e (List.mem_of_mem_filter he)
  have hk : keepEntry startMs endMs e = true := List.of_mem_filter he
  simp [keepEntry] at hk
  simp only [emitEntry, emitSpan]
  split_ifs <;> simp_all <;> omega

/-- C3 witness: the amended clamping guarantee instantiated at a cue
extending past the window on both sides (0-10000 ms, window start
1000 ms, extent 2000 ms), emitted as (0, 2000). -/
theorem c3_clamping_amended_witness :
    0 ≤ ((⟨0, 2000⟩, "A") : TimeSpan × String).1.start ∧
    ((⟨0, 2000⟩, "A") : TimeSpan × String).1.start ≤
      ((⟨0, 2000⟩, "A") : TimeSpan × String).1.stop ∧
    ((⟨0, 2000⟩, "A") : TimeSpan × String).1.stop ≤ 2000 :=
  c3_clamping_amended [⟨⟨0, 10000⟩, some "A"⟩] 1000 2000
    (by decide) (by decide) _ (by decide)

/-- C6: with window start 0 and an extent strictly greater than every
cue's end time (cues having the track invariants: non-negative,
well-formed spans), every cue is emitted with its span unchanged and in
the same order; only absent text is replaced by the empty string. -/
theorem c6_trivial_window_identity (subtitles : List SubtitleEntry) (endMs : ℤ)
    (h : ∀ e ∈ subtitles, 0 ≤ e.timespan.start ∧ e.timespan.start ≤ e.timespan.stop ∧
      e.timespan.stop < endMs) :
    trimCore subtitles 0 endMs =
      subtitles.map (fun e => (e.timespan, e.line.getD "")) := by
  induction subtitles with
  | nil => rfl
  | cons a l ih =>
    have ha := h a (List.mem_cons_self a l)
    rw [trimCore, List.filterMap_cons, trimEntry_eq_ite]
    have hk : keepEntry 0 endMs a = true := by
      simp [keepEntry]
      omega
    have hspan : emitSpan 0 endMs a = a.timespan := by
      simp only [emitSpan]
      split_ifs <;> simp_all <;> omega
    rw [hk]
    simp only [if_pos]
    rw [List.map_cons]
    have hrest := ih (fun e he => h e (List.mem_cons_of_mem a he))
    rw [trimCore] at hrest
    rw [hrest, emitEntry, hspan]

/-- C6 witness: the trivial-window identity at a two-cue track (one cue
carrying no text) with extent 2000 ms. -/
theorem c6_trivial_window_identity_witness :
    trimCore [⟨⟨0, 1000⟩, some "A"⟩, ⟨⟨500, 800⟩, none⟩] 0 2000 =
      [(⟨0, 1000⟩, "A"), (⟨500, 800⟩, "")] :=
  (c6_trivial_window_identity [⟨⟨0, 1000⟩, some "A"⟩, ⟨⟨500, 800⟩, none⟩] 2000
    (by decide)).trans (by decide)

/-- C7: each emitted cue's text is bound to its own source cue: whenever
the per-entry closure emits a cue for an entry, the emitted text is
exactly that entry's original text (non-empty text is never altered) and
is the empty string exactly when the entry carries no text; and the
trimmer's output is precisely these per-entry emissions, so the property
holds of every cue the Trimmer emits. -/
theorem c7_text_defaulting (subtitles : List SubtitleEntry) (startMs endMs : ℤ) :
    (∀ (entry : SubtitleEntry) (p : TimeSpan × String),
      trimEntry startMs endMs entry = some p →
      (entry.line = none ∧ p.2 = "") ∨ entry.line = some p.2) ∧
    trimCore subtitles startMs endMs =
      subtitles.filterMap (trimEntry startMs endMs) := by
  refine ⟨?_, rfl⟩
  intro entry p hp
  rw [trimEntry_eq_ite] at hp
  by_cases hk : keepEntry startMs endMs entry = true
  · rw [if_pos hk] at hp
    have hp2 : p.2 = entry.line.getD "" := by
      rw [← Option.some_inj.mp hp, emitEntry]
    cases hl : entry.line with
    | none => exact Or.inl ⟨rfl, by rw [hp2, hl]; rfl⟩
    | some s => exact Or.inr (by rw [hp2, hl]; rfl)
  · rw [if_neg hk] at hp
    cases hp

/-- C7 witness: the per-source text binding at an entry carrying no
text, emitted by the window (0 ms, 2000 ms) with the empty string as its
text. -/
theorem c7_text_defaulting_witness :
    ((⟨⟨0, 1000⟩, none⟩ : SubtitleEntry).line = none ∧
      ((⟨0, 1000⟩, "") : TimeSpan × String).2 = "") ∨
    (⟨⟨0, 1000⟩, none⟩ : SubtitleEntry).line =
      some ((⟨0, 1000⟩, "") : TimeSpan × String).2 :=
  (c7_text_defaulting [⟨⟨0, 1000⟩, none⟩] 0 2000).1
    ⟨⟨0, 1000⟩, none⟩ (⟨0, 1000⟩, "") (by decide)

lemma validateFrom_ok_iff (time : ℚ) (blocks : List (ℚ × ℚ)) :
    validateFrom time blocks = Except.ok () ↔ blocksWellFormedFrom time blocks := by
  induction blocks generalizing time with
  | nil => simp [validateFrom, blocksWellFormedFrom]
  | cons b rest ih =>
    rw [validateFrom, blocksWellFormedFrom]
    by_cases h1 : b.1 < b.2
    · by_cases h2 : time ≤ b.1
      · simp [h1, h2, ih]
      · simp [h1, h2]
    · simp [h1]

/-- C4: validation succeeds iff every block has start < end and each
block's start is at or after the previous block's end (running bound
starting at 0, touching allowed); on a violating block the rest of the
list is irrelevant (short-circuit); and the spec's three examples:
[(5,10),(3,8)] fails, [(5,10),(10,15)] succeeds, [(5,5)] fails. -/
theorem c4_validator_iff :
    (∀ blocks : List (ℚ × ℚ),
      validate_blocks blocks = Except.ok () ↔ blocksWellFormedFrom 0 blocks) ∧
    (∀ (time : ℚ) (b : ℚ × ℚ) (rest rest' : List (ℚ × ℚ)),
      ¬(b.1 < b.2 ∧ time ≤ b.1) →
      validateFrom time (b :: rest) = validateFrom time (b :: rest')) ∧
    validate_blocks [(5, 10), (3, 8)] = Except.error "time <= block.0" ∧
    validate_blocks [(5, 10), (10, 15)] = Except.ok () ∧
    validate_blocks [(5, 5)] = Except.error "block.0 < block.1" := by
  refine ⟨fun blocks => validateFrom_ok_iff 0 blocks, ?_, by decide, by decide, by decide⟩
  intro time b rest rest' h
  rw [validateFrom, validateFrom]
  by_cases h1 : b.1 < b.2
  · have h2 : ¬ time ≤ b.1 := fun h2 => h ⟨h1, h2⟩
    simp [h1, h2]
  · simp [h1]

/-- C4 witness: the short-circuit clause at the zero-length block (5,5):
whatever follows it cannot change the verdict. -/
theorem c4_validator_iff_witness :
    validateFrom 0 [(5, 5), (1, 2)] = validateFrom 0 [(5, 5)] :=
  c4_validator_iff.2.1 0 (5, 5) [(1, 2)] [] (by decide)

/-- C8: when validation of the block list fails, the whole operation
returns that validation error and produces no output cues: trimming never
runs. -/
theorem c8_fail_fast (blocks : List (ℚ × ℚ)) (subtitles : List SubtitleEntry)
    (e : String) (h : validate_blocks blocks = Except.error e) :
    try_main_core blocks subtitles = Except.error e := by
  rw [try_main_core, h]

/-- C8 witness: fail-fast at the invalid block list [(5,5)]. -/
theorem c8_fail_fast_witness :
    try_main_core [(5, 5)] [] = Except.error "block.0 < block.1" :=
  c8_fail_fast [(5, 5)] [] "block.0 < block.1" (by decide)

/-- C9: a block list whose first block has a negative start never
validates: the running bound starts at 0, so the first start must be
non-negative. -/
theorem c9_negative_first_start (b : ℚ × ℚ) (blocks : List (ℚ × ℚ))
    (h : b.1 < 0) :
    validate_blocks (b :: blocks) ≠ Except.ok () := by
  rw [validate_blocks, validateFrom]
  by_cases h1 : b.1 < b.2
  · have h2 : ¬ (0 : ℚ) ≤ b.1 := not_le.mpr h
    simp [h1, h2]
  · simp [h1]

/-- C9 witness: the block list [(-1,5)] fails validation. -/
theorem c9_negative_first_start_witness :
    validate_blocks [((-1 : ℚ), 5)] ≠ Except.ok () :=
  c9_negative_first_start ((-1 : ℚ), 5) [] (by decide)

/-- C5: the output of the trimming loop is the concatenation, in the
given block order, of each block's independently trimmed cue list (each
re-based to its own zero by its own start delta); and within one window
the trimmer's output is the image, under the per-entry emit function, of
an order-preserving selection (a sublist) of the input track: no sorting,
no reordering. -/
theorem c5_aggregation_order (subtitles : List SubtitleEntry)
    (blocks : List (ℚ × ℚ)) :
    aggregate subtitles blocks =
      (blocks.map (fun b => trim_subtitles subtitles b.1 b.2)).flatten ∧
    ∀ startMs endMs : ℤ,
      trimCore subtitles startMs endMs =
        (subtitles.filter (keepEntry startMs endMs)).map (emitEntry startMs endMs) ∧
      List.Sublist (subtitles.filter (keepEntry startMs endMs)) subtitles :=
  ⟨aggregate_eq_join subtitles blocks,
    fun startMs endMs =>
      ⟨trimCore_eq_filter_map subtitles startMs endMs, List.filter_sublist subtitles⟩⟩

/-- C10: with a validated block list, a single input cue is emitted once
by every window it overlaps (shifted and clamped for that window), and
the whole output is the window-order concatenation of those per-window
emissions, so one source cue can contribute several output cues. -/
theorem c10_multi_emission (c : SubtitleEntry) (blocks : List (ℚ × ℚ))
    (hval : validate_blocks blocks = Except.ok ()) :
    aggregate [c] blocks =
      (blocks.map (fun b => trim_subtitles [c] b.1 b.2)).flatten ∧
    ∀ b ∈ blocks, msOf b.1 < c.timespan.stop → c.timespan.start < msOf b.2 →
      trim_subtitles [c] b.1 b.2 = [emitEntry (msOf b.1) (msOf b.2) c] := by
  refine ⟨aggregate_eq_join [c] blocks, ?_⟩
  intro b hb h1 h2
  have hbb := validateFrom_ok_mem hval b hb
  have hws : 0 ≤ msOf b.1 := msOf_nonneg hbb.1
  rw [trim_subtitles, trimCore_singleton]
  have hk : keepEntry (msOf b.1) (msOf b.2) c = true := by
    simp [keepEntry]
    omega
  simp [hk]

/-- C10 witness: the cue 3000-7000 ms overlaps both validated windows
(2,4) and (6,9); the first window emits it (shifted by 2000 ms and
clamped). -/
theorem c10_multi_emission_witness :
    trim_subtitles [⟨⟨3000, 7000⟩, some "X"⟩] 2 4 =
      [emitEntry (msOf 2) (msOf 4) ⟨⟨3000, 7000⟩, some "X"⟩] :=
  (c10_multi_emission ⟨⟨3000, 7000⟩, some "X"⟩ [(2, 4), (6, 9)] (by decide)).2
    (2, 4) (by decide) (by simp [msOf_two]) (by simp [msOf_four])

/-- C2: the code passes the raw block end, not the duration end − start,
as the trimmer's extent. For the validated single window (5,10) and the
cue spanning 11000-12000 ms, the program keeps the cue (shifted to
6000-7000 ms, since 6000 < 10000), whereas the duration-based
aggregation the claim states drops it (6000 ≥ 5000): the claim is right
about the intent the spec documents and the code diverges from it. -/
theorem c2_raw_end_extent_bug :
    try_main_core [(5, 10)] [⟨⟨11000, 12000⟩, some "C"⟩] =
      Except.ok [(⟨6000, 7000⟩, "C")] ∧
    aggregate_durationBased [⟨⟨11000, 12000⟩, some "C"⟩] [(5, 10)] = [] := by
  constructor
  · rw [try_main_core]
    have hv : validate_blocks [(5, 10)] = Except.ok () := by decide
    rw [hv]
    have ha : aggregate [⟨⟨11000, 12000⟩, some "C"⟩] [(5, 10)] =
        trimCore [⟨⟨11000, 12000⟩, some "C"⟩] (msOf 5) (msOf 10) := by
      simp [aggregate, trim_subtitles]
    rw [ha, msOf_five, msOf_ten]
    decide
  · have ha : aggregate_durationBased [⟨⟨11000, 12000⟩, some "C"⟩] [(5, 10)] =
        trimCore [⟨⟨11000, 12000⟩, some "C"⟩] (msOf 5) (msOf (10 - 5)) := by
      simp [aggregate_durationBased, trim_subtitles]
    rw [ha]
    norm_num [msOf_five]
    decide
